import Mathlib

/-!
Verification development for `generate_ics_from_file.py` of the
`china_adjusted_workdays` repository.

The script reads adjusted-workday dates (`YYYY-MM-DD` lines) from a text file,
loads (or creates) an ICS calendar, adds one all-day event per date not already
covered by an event titled `调休上班`, and writes the calendar back.

The embedding below translates the script's functions into pure Lean
definitions.  Python's in-place mutation (of the calendar object, the
candidate-date list, and the covered-date set) becomes explicit state passing:
each modelled function returns the final values of everything the Python
function mutates, together with its return value.  Console output that the
claims talk about (the printed date list, the rejected-line report, the
prompts) is returned as explicit fields.  Exceptions become explicit
alternatives of inductive types.
-/

/-- A calendar date as produced by `datetime.strptime(line, "%Y-%m-%d").date()`.
Python `date` objects compare lexicographically by (year, month, day). -/
structure Date where
  year : Nat
  month : Nat
  day : Nat
deriving DecidableEq, Repr

/-- The order on Python `date` objects: lexicographic on (year, month, day). -/
def Date.le (a b : Date) : Prop :=
  a.year < b.year ∨
    (a.year = b.year ∧ (a.month < b.month ∨ (a.month = b.month ∧ a.day ≤ b.day)))

instance : DecidableRel Date.le := fun a b => by
  unfold Date.le; infer_instance

instance : IsTotal Date Date.le :=
  ⟨by intro a b; unfold Date.le; omega⟩

instance : IsTrans Date Date.le :=
  ⟨by intro a b c; unfold Date.le; omega⟩

instance : IsAntisymm Date Date.le := by
  constructor
  intro a b h1 h2
  obtain ⟨a1, a2, a3⟩ := a
  obtain ⟨b1, b2, b3⟩ := b
  simp only [Date.le] at h1 h2
  simp only [Date.mk.injEq]
  omega

/-- `EVENT_SUMMARY` (line 16): the fixed title of every adjusted-workday event. -/
def EVENT_SUMMARY : String := "调休上班"

/-- The value of an event's `begin` attribute as the loader sees it
(lines 108–111): either a plain date, or a datetime carrying a time of day
(whose `.date()` is its date component). -/
inductive EventBegin where
  | onDate (d : Date)
  | atDateTime (d : Date) (secondsOfDay : Nat)
deriving DecidableEq, Repr

/-- Normalisation performed at lines 109–111: `event.begin` with a `date`
attribute (a datetime) is replaced by `event_date.date()`; a plain date is
kept. -/
def EventBegin.dateOf : EventBegin → Date
  | .onDate d => d
  | .atDateTime d _ => d

/-- An ICS `VEVENT` as the script uses it: a title (`event.name`), a begin
value (`event.begin`), and whether `make_all_day()` was applied. -/
structure VEvent where
  name : String
  begin : EventBegin
  allDay : Bool
deriving DecidableEq, Repr

/-- The `ics.Calendar` document: its collection of events.  The library stores
a set of distinct event objects; the model keeps them in a list (every event
the script adds is a fresh object, so additions never collapse). -/
structure Calendar where
  events : List VEvent
deriving DecidableEq, Repr

/-- `Calendar()` with no argument: a new empty document. -/
def Calendar.empty : Calendar := ⟨[]⟩

/-- One step of the loader's scan over the parsed document's events
(lines 107–115): normalise `event.begin` to its date component, and if the
title equals `EVENT_SUMMARY`, record the date.  The `isinstance(event_date,
date)` guard of line 112 always holds after normalisation, so it imposes no
extra condition in the model. -/
def coveredStep (s : Finset Date) (ev : VEvent) : Finset Date :=
  if ev.name = EVENT_SUMMARY then insert ev.begin.dateOf s else s

/-- The covered-date set extracted from a list of events (lines 106–115). -/
def coveredDates (evs : List VEvent) : Finset Date :=
  evs.foldl coveredStep ∅

/-- The states the target ICS file can be in, as `load_or_create_calendar`
(lines 96–128) distinguishes them:
* `missing` — opening raises `FileNotFoundError` (line 122);
* `badMarkers s` — the file holds text whose trimmed content fails the
  `BEGIN:VCALENDAR … END:VCALENDAR` marker check of line 103;
* `parseError s` — the marker check passes but `Calendar(content)` raises,
  landing in the `except Exception` handler (line 125);
* `wellFormed c` — the marker check passes and the content parses to the
  document `c`. -/
inductive FileState where
  | missing
  | badMarkers (s : String)
  | parseError (s : String)
  | wellFormed (c : Calendar)
deriving DecidableEq, Repr

/-- `load_or_create_calendar` (lines 96–128): parse the file if possible and
extract the covered-date set; on a missing file, failed marker check, or parse
exception, start fresh with a new empty document and empty set. -/
def load_or_create_calendar : FileState → Calendar × Finset Date
  | .wellFormed c => (c, coveredDates c.events)
  | .badMarkers _ => (Calendar.empty, ∅)
  | .missing => (Calendar.empty, ∅)
  | .parseError _ => (Calendar.empty, ∅)

/-- The event built at lines 141–144: fixed title, begin set to the plain
date, made all-day. -/
def mkAdjEvent (d : Date) : VEvent :=
  { name := EVENT_SUMMARY, begin := .onDate d, allDay := true }

/-- The loop of `add_adjustment_events` (lines 136–149) over the (already
sorted) candidate list: skip dates in the covered set; otherwise append the
new event, insert the date into the covered set, and bump the counter. -/
def addLoop : List Date → Calendar → Finset Date → Nat → Calendar × Finset Date × Nat
  | [], c, ex, n => (c, ex, n)
  | d :: ds, c, ex, n =>
    if d ∈ ex then addLoop ds c ex n
    else addLoop ds ⟨c.events ++ [mkAdjEvent d]⟩ (insert d ex) (n + 1)

/-- Everything `add_adjustment_events` leaves behind: the mutated calendar and
covered set, the returned count, and the candidate list after its in-place
`sort()`. -/
structure AddResult where
  calendar : Calendar
  existing : Finset Date
  addedCount : Nat
  sortedDates : List Date
deriving DecidableEq

/-- `add_adjustment_events` (lines 131–151): sort the candidate dates in
place, then add one all-day event per date not already covered, returning the
count added.  `list.sort()` is modelled by insertion sort under the date
order. -/
def add_adjustment_events (calendar : Calendar) (adjustment_dates : List Date)
    (existing_event_dates : Finset Date) : AddResult :=
  let sorted := List.insertionSort Date.le adjustment_dates
  let r := addLoop sorted calendar existing_event_dates 0
  ⟨r.1, r.2.1, r.2.2, sorted⟩

/-- Specification helper: the subsequence of candidate dates the loop actually
adds, given the covered set at entry (first occurrences of dates not yet
covered). -/
def addedDates : List Date → Finset Date → List Date
  | [], _ => []
  | d :: ds, ex =>
    if d ∈ ex then addedDates ds ex
    else d :: addedDates ds (insert d ex)

/-- Python `str.strip()`: remove leading and trailing whitespace.  Modelled
over the string's character list with Lean's `Char.isWhitespace`. -/
def pyStrip (s : String) : String :=
  ⟨((s.data.dropWhile Char.isWhitespace).reverse.dropWhile Char.isWhitespace).reverse⟩

/-- Python `line.startswith('#')`. -/
def startsWithHash (s : String) : Bool :=
  match s.data with
  | c :: _ => c == '#'
  | [] => false

/-- Python `str.lower()`, applied to the user's prompt answers. -/
def pyLower (s : String) : String :=
  ⟨s.data.map Char.toLower⟩

/-- The regular-expression test of line 45, `re.match(r"^\d{4}-\d{2}-\d{2}$",
line)`: exactly ten characters, digits in the year, month and day positions,
hyphens between them.  Digits are modelled as the ASCII decimal digits. -/
def datePatternMatch (s : String) : Bool :=
  match s.data with
  | [y1, y2, y3, y4, h1, m1, m2, h2, d1, d2] =>
    y1.isDigit && y2.isDigit && y3.isDigit && y4.isDigit && h1 == '-' &&
      m1.isDigit && m2.isDigit && h2 == '-' && d1.isDigit && d2.isDigit
  | _ => false

/-- Numeric value of an ASCII digit character. -/
def digitVal (c : Char) : Nat := c.toNat - 48

/-- The numbers `strptime` reads out of a line that matched the pattern. -/
def extractDate (s : String) : Date :=
  match s.data with
  | [y1, y2, y3, y4, _, m1, m2, _, d1, d2] =>
    ⟨digitVal y1 * 1000 + digitVal y2 * 100 + digitVal y3 * 10 + digitVal y4,
     digitVal m1 * 10 + digitVal m2,
     digitVal d1 * 10 + digitVal d2⟩
  | _ => ⟨0, 0, 0⟩

/-- Gregorian leap year, as `datetime` implements it. -/
def isLeapYear (y : Nat) : Bool :=
  (y % 4 == 0 && y % 100 != 0) || y % 400 == 0

/-- Days in a month of the proleptic Gregorian calendar. -/
def daysInMonth (y m : Nat) : Nat :=
  if m = 2 then (if isLeapYear y then 29 else 28)
  else if m = 4 ∨ m = 6 ∨ m = 9 ∨ m = 11 then 30
  else 31

/-- Whether `datetime.strptime(s, "%Y-%m-%d")` succeeds on a pattern-matching
line: the month and day ranges must be valid for the Gregorian calendar and
the year at least `MINYEAR = 1` (a four-digit year is at most 9999 =
`MAXYEAR`). -/
def isValidDate (d : Date) : Bool :=
  1 ≤ d.year && 1 ≤ d.month && d.month ≤ 12 && 1 ≤ d.day &&
    d.day ≤ daysInMonth d.year d.month

/-- What the reader's loop body (lines 36–56) does with one raw input line. -/
inductive LineClass where
  | ignored
  | valid (d : Date)
  | formatError (s : String)
  | invalidDate (s : String)
deriving DecidableEq, Repr

/-- Classification of a raw line by the loop body of lines 36–56: trim; skip
blank lines and `#` comments; reject lines failing the pattern as format
errors; parse the rest and reject calendrically invalid dates. -/
def lineClass (raw : String) : LineClass :=
  let s := pyStrip raw
  if s.data.isEmpty || startsWithHash s then .ignored
  else if datePatternMatch s then
    (if isValidDate (extractDate s) then .valid (extractDate s)
     else .invalidDate s)
  else .formatError s

/-- The rejection record appended at line 47 for a format error. -/
def formatErrorMsg (n : Nat) (s : String) : String :=
  "L" ++ toString n ++ ": " ++ s ++ " (格式错误)"

/-- The rejection record appended at line 55 for a calendrically invalid
date. -/
def invalidDateMsg (n : Nat) (s : String) : String :=
  "L" ++ toString n ++ ": " ++ s ++ " (日期无效)"

/-- The scanning loop of lines 36–56 over the file's lines, starting at line
number `n`: returns `parsed_dates` (in file order) and `invalid_lines` (the
rejection records, in file order). -/
def scanLines (n : Nat) : List String → List Date × List String
  | [] => ([], [])
  | raw :: ls =>
    let rest := scanLines (n + 1) ls
    match lineClass raw with
    | .ignored => rest
    | .valid d => (d :: rest.1, rest.2)
    | .formatError s => (rest.1, formatErrorMsg n s :: rest.2)
    | .invalidDate s => (rest.1, invalidDateMsg n s :: rest.2)

/-- How the attempt to read the input file ends: `FileNotFoundError`
(line 90), some other exception (line 92), or a successful read yielding the
file's lines. -/
inductive ReadOutcome where
  | notFound
  | ioError
  | ok (lines : List String)
deriving DecidableEq, Repr

/-- Everything observable about one call to `read_dates_from_file`
(lines 21–94): the sorted valid dates printed at lines 69–70, the rejected
lines printed at lines 72–74, whether the confirmation prompt (line 77) and
the retry prompt (line 85) were reached, and the Python return value —
`none` models returning `None` (falling off the end of the function), `some
l` models `return l`. -/
structure ReaderResult where
  printedDates : List Date
  printedInvalid : List String
  askedConfirm : Bool
  askedRetry : Bool
  ret : Option (List Date)
deriving DecidableEq, Repr

/-- The caller's test at line 195 (`if adjustment_dates:`): in Python both
`None` and the empty list are falsy, so a result carries dates exactly when
it is a non-empty returned list. -/
def ReaderResult.hasDates (r : ReaderResult) : Bool :=
  match r.ret with
  | none => false
  | some l => !l.isEmpty

/-- `read_dates_from_file` (lines 21–94), parameterised by the file-read
outcome and by the user's answers to the confirmation and retry prompts
(lowercased by `.lower()` before comparison with `'y'`).
* `FileNotFoundError`: the handler at line 90 prints an error and falls off
  the end of the function, returning `None`.
* Any other exception: the handler at lines 92–94 returns `[]`.
* No valid dates scanned: the retry prompt at line 85 runs; answering other
  than `y` returns `[]`; answering `y` falls off the end (there is no
  enclosing loop, despite the comment at line 88), returning `None`.
* Otherwise: the sorted dates and rejected lines are printed, the
  confirmation prompt at line 77 runs; `y` returns the sorted list, anything
  else returns `[]`. -/
def read_dates_from_file (file : ReadOutcome) (confirmAns retryAns : String) :
    ReaderResult :=
  match file with
  | .notFound => ⟨[], [], false, false, none⟩
  | .ioError => ⟨[], [], false, false, some []⟩
  | .ok lines =>
    let scanned := scanLines 1 lines
    if scanned.1 = [] then
      ⟨[], [], false, true, if pyLower retryAns = "y" then none else some []⟩
    else
      let sorted := List.insertionSort Date.le scanned.1
      if pyLower confirmAns = "y" then ⟨sorted, scanned.2, true, false, some sorted⟩
      else ⟨sorted, scanned.2, true, false, some []⟩

/-- `save_calendar` (lines 153–163).  Modelled from the spec: the third-party
`ics` library's `str(calendar)` serialisation, which is not part of this
repository, produces a standard `VCALENDAR` document — its trimmed text
begins with `BEGIN:VCALENDAR`, ends with `END:VCALENDAR`, and reparses to the
same document (titles and begin dates preserved) — so a successful write
leaves the file well-formed and holding the document. -/
def save_calendar (c : Calendar) : FileState := .wellFormed c

/-- What the merge block of `__main__` (lines 195–205) leaves behind: the
state of the ICS file, whether `save_calendar` was invoked, and the count the
merger returned. -/
structure MainResult where
  file : FileState
  savedInvoked : Bool
  addedCount : Nat
deriving DecidableEq

/-- The body of `__main__` after dates were obtained and confirmed
(lines 196–203): load or create the calendar, merge the dates, and save only
when `added_count > 0`; otherwise the file is left untouched. -/
def mainMerge (fs : FileState) (ds : List Date) : MainResult :=
  let lc := load_or_create_calendar fs
  let r := add_adjustment_events lc.1 ds lc.2
  if 0 < r.addedCount then ⟨save_calendar r.calendar, true, r.addedCount⟩
  else ⟨fs, false, r.addedCount⟩

/-! ### Helper lemmas -/

/-- Membership in the loader's covered-set fold, for any starting set. -/
theorem mem_coveredFold (evs : List VEvent) (s : Finset Date) (d : Date) :
    d ∈ evs.foldl coveredStep s ↔
      d ∈ s ∨ ∃ ev ∈ evs, ev.name = EVENT_SUMMARY ∧ ev.begin.dateOf = d := by
  induction evs generalizing s with
  | nil => simp
  | cons ev evs ih =>
    rw [List.foldl_cons, ih]
    unfold coveredStep
    by_cases h : ev.name = EVENT_SUMMARY
    · simp only [if_pos h, Finset.mem_insert, List.mem_cons]
      constructor
      · rintro ((rfl | hs) | ⟨e, he, hn, hd⟩)
        · exact Or.inr ⟨ev, Or.inl rfl, h, rfl⟩
        · exact Or.inl hs
        · exact Or.inr ⟨e, Or.inr he, hn, hd⟩
      · rintro (hs | ⟨e, (rfl | he), hn, hd⟩)
        · exact Or.inl (Or.inr hs)
        · exact Or.inl (Or.inl hd.symm)
        · exact Or.inr ⟨e, he, hn, hd⟩
    · simp only [if_neg h, List.mem_cons]
      constructor
      · rintro (hs | ⟨e, he, hn, hd⟩)
        · exact Or.inl hs
        · exact Or.inr ⟨e, Or.inr he, hn, hd⟩
      · rintro (hs | ⟨e, (rfl | he), hn, hd⟩)
        · exact Or.inl hs
        · exact absurd hn h
        · exact Or.inr ⟨e, he, hn, hd⟩

/-- Membership in the covered-date set extracted from a list of events. -/
theorem mem_coveredDates (evs : List VEvent) (d : Date) :
    d ∈ coveredDates evs ↔
      ∃ ev ∈ evs, ev.name = EVENT_SUMMARY ∧ ev.begin.dateOf = d := by
  rw [coveredDates, mem_coveredFold]
  simp

/-- Appending freshly built adjustment events extends the covered-date set by
exactly their dates. -/
theorem coveredDates_append_adj (evs : List VEvent) (ds : List Date) :
    coveredDates (evs ++ ds.map mkAdjEvent) = coveredDates evs ∪ ds.toFinset := by
  ext x
  simp only [Finset.mem_union, mem_coveredDates, List.mem_append, List.mem_map,
    List.mem_toFinset]
  constructor
  · rintro ⟨ev, (hev | ⟨d, hd, rfl⟩), hname, hdate⟩
    · exact Or.inl ⟨ev, hev, hname, hdate⟩
    · simp only [mkAdjEvent, EventBegin.dateOf] at hdate
      exact Or.inr (hdate ▸ hd)
  · rintro (⟨ev, hev, hname, hdate⟩ | hd)
    · exact ⟨ev, Or.inl hev, hname, hdate⟩
    · exact ⟨mkAdjEvent x, Or.inr ⟨x, hd, rfl⟩, rfl, rfl⟩

/-- The merger's loop appends exactly the events for `addedDates`. -/
theorem addLoop_events (l : List Date) (c : Calendar) (ex : Finset Date) (n : Nat) :
    (addLoop l c ex n).1.events = c.events ++ (addedDates l ex).map mkAdjEvent := by
  induction l generalizing c ex n with
  | nil => simp [addLoop, addedDates]
  | cons d ds ih =>
    by_cases h : d ∈ ex
    · simp [addLoop, addedDates, h, ih]
    · simp [addLoop, addedDates, h, ih]

/-- The merger's loop leaves the covered set equal to its initial value united
with all candidates. -/
theorem addLoop_existing (l : List Date) (c : Calendar) (ex : Finset Date) (n : Nat) :
    (addLoop l c ex n).2.1 = ex ∪ l.toFinset := by
  induction l generalizing c ex n with
  | nil => simp [addLoop]
  | cons d ds ih =>
    by_cases h : d ∈ ex
    · rw [show addLoop (d :: ds) c ex n = addLoop ds c ex n from by simp [addLoop, h], ih]
      ext x
      simp only [Finset.mem_union, List.toFinset_cons, Finset.mem_insert, List.mem_toFinset]
      constructor
      · rintro (hx | hx)
        · exact Or.inl hx
        · exact Or.inr (Or.inr hx)
      · rintro (hx | rfl | hx)
        · exact Or.inl hx
        · exact Or.inl h
        · exact Or.inr hx
    · rw [show addLoop (d :: ds) c ex n
          = addLoop ds ⟨c.events ++ [mkAdjEvent d]⟩ (insert d ex) (n + 1) from by
            simp [addLoop, h], ih]
      ext x
      simp only [Finset.mem_union, Finset.mem_insert, List.toFinset_cons, List.mem_toFinset]
      tauto

/-- The merger's loop bumps its counter once per added date. -/
theorem addLoop_count (l : List Date) (c : Calendar) (ex : Finset Date) (n : Nat) :
    (addLoop l c ex n).2.2 = n + (addedDates l ex).length := by
  induction l generalizing c ex n with
  | nil => simp [addLoop, addedDates]
  | cons d ds ih =>
    by_cases h : d ∈ ex
    · simp only [addLoop, if_pos h, addedDates, ih]
    · simp only [addLoop, if_neg h, addedDates, ih, List.length_cons]
      omega

/-- The dates actually added form a subsequence of the candidate list. -/
theorem addedDates_sublist (l : List Date) (ex : Finset Date) :
    List.Sublist (addedDates l ex) l := by
  induction l generalizing ex with
  | nil => simp [addedDates]
  | cons d ds ih =>
    by_cases h : d ∈ ex
    · simp only [addedDates, if_pos h]
      exact List.Sublist.cons d (ih ex)
    · simp only [addedDates, if_neg h]
      exact List.Sublist.cons₂ d (ih (insert d ex))

/-- The dates actually added are the candidates not already covered. -/
theorem addedDates_toFinset (l : List Date) (ex : Finset Date) :
    (addedDates l ex).toFinset = l.toFinset \ ex := by
  induction l generalizing ex with
  | nil => simp [addedDates]
  | cons d ds ih =>
    by_cases h : d ∈ ex
    · rw [addedDates, if_pos h, ih]
      ext x
      simp only [Finset.mem_sdiff, List.mem_toFinset, List.toFinset_cons, Finset.mem_insert]
      constructor
      · rintro ⟨hx, hnx⟩
        exact ⟨Or.inr hx, hnx⟩
      · rintro ⟨(rfl | hx), hnx⟩
        · exact absurd h hnx
        · exact ⟨hx, hnx⟩
    · rw [addedDates, if_neg h, List.toFinset_cons, ih]
      ext x
      simp only [Finset.mem_insert, Finset.mem_sdiff, List.mem_toFinset, List.toFinset_cons]
      constructor
      · rintro (rfl | ⟨hx, hnx⟩)
        · exact ⟨Or.inl rfl, h⟩
        · simp only [Finset.mem_insert, not_or] at hnx
          exact ⟨Or.inr hx, hnx.2⟩
      · rintro ⟨(rfl | hx), hnx⟩
        · exact Or.inl rfl
        · by_cases hxd : x = d
          · exact Or.inl hxd
          · refine Or.inr ⟨hx, ?_⟩
            simp only [Finset.mem_insert, not_or]
            exact ⟨hxd, hnx⟩

/-- No date actually added was in the covered set at entry. -/
theorem addedDates_not_mem (l : List Date) (ex : Finset Date) (x : Date)
    (hx : x ∈ addedDates l ex) : x ∉ ex := by
  have hx' : x ∈ (addedDates l ex).toFinset := List.mem_toFinset.2 hx
  rw [addedDates_toFinset] at hx'
  exact (Finset.mem_sdiff.1 hx').2

/-- Each date is added at most once, even when the candidate batch repeats it. -/
theorem addedDates_nodup (l : List Date) (ex : Finset Date) :
    (addedDates l ex).Nodup := by
  induction l generalizing ex with
  | nil => simp [addedDates]
  | cons d ds ih =>
    by_cases h : d ∈ ex
    · simpa [addedDates, h] using ih ex
    · simp only [addedDates, if_neg h, List.nodup_cons]
      exact ⟨fun hd => addedDates_not_mem ds (insert d ex) d hd
        (Finset.mem_insert_self d ex), ih (insert d ex)⟩

/-- The number of added dates is the number of distinct candidates not already
covered. -/
theorem addedDates_length (l : List Date) (ex : Finset Date) :
    (addedDates l ex).length = (l.toFinset \ ex).card := by
  rw [← addedDates_toFinset]
  exact (List.toFinset_card_of_nodup (addedDates_nodup l ex)).symm

/-- Unfolding: the merger's resulting event list. -/
theorem add_events (c : Calendar) (ds : List Date) (ex : Finset Date) :
    (add_adjustment_events c ds ex).calendar.events =
      c.events ++ (addedDates (List.insertionSort Date.le ds) ex).map mkAdjEvent :=
  addLoop_events (List.insertionSort Date.le ds) c ex 0

/-- Unfolding: the merger's resulting covered set. -/
theorem add_existing (c : Calendar) (ds : List Date) (ex : Finset Date) :
    (add_adjustment_events c ds ex).existing = ex ∪ ds.toFinset := by
  have h := addLoop_existing (List.insertionSort Date.le ds) c ex 0
  have hperm : (List.insertionSort Date.le ds).toFinset = ds.toFinset :=
    List.toFinset_eq_of_perm _ _ (List.perm_insertionSort Date.le ds)
  rw [hperm] at h
  exact h

/-- Unfolding: the merger's count is the number of dates actually added. -/
theorem add_count_len (c : Calendar) (ds : List Date) (ex : Finset Date) :
    (add_adjustment_events c ds ex).addedCount =
      (addedDates (List.insertionSort Date.le ds) ex).length := by
  have h := addLoop_count (List.insertionSort Date.le ds) c ex 0
  simpa using h

/-- The merger's count is the number of distinct candidates not already
covered. -/
theorem add_count (c : Calendar) (ds : List Date) (ex : Finset Date) :
    (add_adjustment_events c ds ex).addedCount = (ds.toFinset \ ex).card := by
  rw [add_count_len, addedDates_length]
  congr 1
  rw [List.toFinset_eq_of_perm _ _ (List.perm_insertionSort Date.le ds)]

/-- Unfolding: the merger returns the candidate list sorted. -/
theorem add_sorted (c : Calendar) (ds : List Date) (ex : Finset Date) :
    (add_adjustment_events c ds ex).sortedDates = List.insertionSort Date.le ds :=
  rfl

/-- Loader invariant: the covered set it returns is exactly the covered-date
set of the document it returns. -/
theorem load_covered_inv (fs : FileState) :
    (load_or_create_calendar fs).2 = coveredDates (load_or_create_calendar fs).1.events := by
  cases fs <;> rfl

/-- The count the main merge block observes, in terms of the loaded state. -/
theorem mainMerge_count (fs : FileState) (ds : List Date) :
    (mainMerge fs ds).addedCount =
      (ds.toFinset \ (load_or_create_calendar fs).2).card := by
  by_cases h : 0 < (add_adjustment_events (load_or_create_calendar fs).1 ds
      (load_or_create_calendar fs).2).addedCount
  · simp only [mainMerge, if_pos h]
    exact add_count _ _ _
  · simp only [mainMerge, if_neg h]
    exact add_count _ _ _

/-- Removing a set together with everything missing from it removes the whole
set. -/
theorem sdiff_union_sdiff_empty (s t : Finset Date) : (s \ (t ∪ (s \ t))).card = 0 := by
  rw [Finset.card_eq_zero]
  ext x
  simp only [Finset.mem_sdiff, Finset.mem_union, Finset.not_mem_empty, iff_false, not_and,
    not_not]
  tauto

/-- Covered-date set of the document after a merge. -/
theorem covered_after_merge (c : Calendar) (ds : List Date) (ex : Finset Date) :
    coveredDates (add_adjustment_events c ds ex).calendar.events =
      coveredDates c.events ∪ (ds.toFinset \ ex) := by
  rw [add_events, coveredDates_append_adj, addedDates_toFinset,
    List.toFinset_eq_of_perm _ _ (List.perm_insertionSort Date.le ds)]

/-! ### Claim theorems -/

/-- C1: the event merger processes the candidate dates in ascending sorted
order, adds exactly one all-day event with the fixed title per candidate date
not already in the covered set (silently skipping covered dates; a date
repeated within the batch, entering the covered set on its first addition, is
added only once), and returns the number of events added, which equals the
number of distinct candidate dates not in the initial covered set. -/
theorem add_adjustment_events_spec (c : Calendar) (ds : List Date) (ex : Finset Date) :
    (add_adjustment_events c ds ex).addedCount = (ds.toFinset \ ex).card ∧
    List.Sorted Date.le (add_adjustment_events c ds ex).sortedDates ∧
    (add_adjustment_events c ds ex).sortedDates.Perm ds ∧
    (∃ added : List Date,
      (add_adjustment_events c ds ex).calendar.events = c.events ++ added.map mkAdjEvent ∧
      added.Nodup ∧ List.Sorted Date.le added ∧
      added.toFinset = ds.toFinset \ ex ∧
      (add_adjustment_events c ds ex).addedCount = added.length) := by
  refine ⟨add_count c ds ex, ?_, ?_, addedDates (List.insertionSort Date.le ds) ex,
    add_events c ds ex, addedDates_nodup _ _, ?_, ?_, add_count_len c ds ex⟩
  · rw [add_sorted]
    exact List.sorted_insertionSort Date.le ds
  · rw [add_sorted]
    exact List.perm_insertionSort Date.le ds
  · exact (List.sorted_insertionSort Date.le ds).sublist (addedDates_sublist _ _)
  · rw [addedDates_toFinset,
      List.toFinset_eq_of_perm _ _ (List.perm_insertionSort Date.le ds)]

/-- C10: the merger mutates its arguments in place — afterwards the caller's
candidate list is sorted ascending (a permutation of what was passed in), the
caller's covered-date set equals its previous value united with all candidate
dates, and the document has gained exactly added-count events. -/
theorem add_adjustment_events_mutation (c : Calendar) (ds : List Date) (ex : Finset Date) :
    (add_adjustment_events c ds ex).sortedDates.Perm ds ∧
    List.Sorted Date.le (add_adjustment_events c ds ex).sortedDates ∧
    (add_adjustment_events c ds ex).existing = ex ∪ ds.toFinset ∧
    (add_adjustment_events c ds ex).calendar.events.length =
      c.events.length + (add_adjustment_events c ds ex).addedCount := by
  refine ⟨?_, ?_, add_existing c ds ex, ?_⟩
  · rw [add_sorted]
    exact List.perm_insertionSort Date.le ds
  · rw [add_sorted]
    exact List.sorted_insertionSort Date.le ds
  · rw [add_events, add_count_len, List.length_append, List.length_map]

/-- C2: on an existing, well-formed calendar file the loader returns the
parsed document unchanged together with the covered-date set holding exactly
the (normalised) dates of the events titled `调休上班`; events with other
titles stay in the document and contribute nothing to the set. -/
theorem load_or_create_calendar_wellFormed_spec (c : Calendar) :
    load_or_create_calendar (.wellFormed c) = (c, coveredDates c.events) ∧
    ∀ d : Date,
      d ∈ (load_or_create_calendar (.wellFormed c)).2 ↔
        ∃ ev ∈ c.events, ev.name = EVENT_SUMMARY ∧ ev.begin.dateOf = d :=
  ⟨rfl, fun d => mem_coveredDates c.events d⟩

/-- C8: the loader starts fresh instead of failing — a missing file, a file
whose trimmed content fails the container-marker check, and a parse exception
all yield a new empty document and an empty covered-date set, with no
exception propagating (the loader is a total function of the file state). -/
theorem load_or_create_calendar_failure_spec :
    load_or_create_calendar .missing = (Calendar.empty, ∅) ∧
    (∀ s, load_or_create_calendar (.badMarkers s) = (Calendar.empty, ∅)) ∧
    (∀ s, load_or_create_calendar (.parseError s) = (Calendar.empty, ∅)) :=
  ⟨rfl, fun _ => rfl, fun _ => rfl⟩

/-- C3: idempotence — whatever the starting file state, running the
load-then-merge pipeline a second time with the same input against the file
the first run leaves behind adds zero new events. -/
theorem mainMerge_idempotent (fs : FileState) (ds : List Date) :
    (mainMerge (mainMerge fs ds).file ds).addedCount = 0 := by
  by_cases h : 0 < (add_adjustment_events (load_or_create_calendar fs).1 ds
      (load_or_create_calendar fs).2).addedCount
  · have hfile : (mainMerge fs ds).file = .wellFormed
        (add_adjustment_events (load_or_create_calendar fs).1 ds
          (load_or_create_calendar fs).2).calendar := by
      simp only [mainMerge, save_calendar, if_pos h]
    rw [hfile, mainMerge_count]
    have hcov : (load_or_create_calendar (FileState.wellFormed
        (add_adjustment_events (load_or_create_calendar fs).1 ds
          (load_or_create_calendar fs).2).calendar)).2 =
        coveredDates (load_or_create_calendar fs).1.events ∪
          (ds.toFinset \ (load_or_create_calendar fs).2) := by
      rw [← covered_after_merge]
      rfl
    rw [hcov, ← load_covered_inv]
    exact sdiff_union_sdiff_empty _ _
  · have hfile : (mainMerge fs ds).file = fs := by
      simp only [mainMerge, if_neg h]
    rw [hfile, mainMerge_count]
    have h0 := add_count (load_or_create_calendar fs).1 ds (load_or_create_calendar fs).2
    omega

/-- C4: round-trip — the dates the merger adds as all-day events, once the
document is serialised by the writer, reappear unchanged in the covered-date
set produced by reloading the written file; starting from an empty document
the reloaded covered set is exactly the candidate-date set. -/
theorem save_load_round_trip (c : Calendar) (ds : List Date) :
    load_or_create_calendar (save_calendar
        (add_adjustment_events c ds (coveredDates c.events)).calendar) =
      ((add_adjustment_events c ds (coveredDates c.events)).calendar,
        coveredDates c.events ∪ ds.toFinset) ∧
    (load_or_create_calendar (save_calendar
        (add_adjustment_events Calendar.empty ds ∅).calendar)).2 = ds.toFinset := by
  constructor
  · have h1 : load_or_create_calendar (save_calendar
        (add_adjustment_events c ds (coveredDates c.events)).calendar) =
        ((add_adjustment_events c ds (coveredDates c.events)).calendar,
          coveredDates (add_adjustment_events c ds (coveredDates c.events)).calendar.events) :=
      rfl
    rw [h1, covered_after_merge, Finset.union_sdiff_self_eq_union]
  · have h1 : (load_or_create_calendar (save_calendar
        (add_adjustment_events Calendar.empty ds ∅).calendar)).2 =
        coveredDates (add_adjustment_events Calendar.empty ds ∅).calendar.events :=
      rfl
    rw [h1, covered_after_merge]
    simp [Calendar.empty, coveredDates]

/-- C9: when the merger reports an added count of zero the writer is not
invoked and the file keeps its previous state; the writer runs exactly when
at least one event was added. -/
theorem mainMerge_frame_spec (fs : FileState) (ds : List Date) :
    ((mainMerge fs ds).addedCount = 0 →
      (mainMerge fs ds).savedInvoked = false ∧ (mainMerge fs ds).file = fs) ∧
    ((mainMerge fs ds).savedInvoked = true ↔ 0 < (mainMerge fs ds).addedCount) := by
  by_cases h : 0 < (add_adjustment_events (load_or_create_calendar fs).1 ds
      (load_or_create_calendar fs).2).addedCount
  · simp only [mainMerge]
    rw [if_pos h]
    exact ⟨fun h0 => absurd h0 (Nat.pos_iff_ne_zero.mp h), fun _ => h, fun _ => rfl⟩
  · simp only [mainMerge]
    rw [if_neg h]
    exact ⟨fun _ => ⟨rfl, rfl⟩,
      ⟨fun hh => absurd hh Bool.false_ne_true, fun hh => absurd hh h⟩⟩

/-- Witness for C9 at a concrete input on which nothing is added: the file
already covers the only candidate date, so the writer is not invoked and the
file is unchanged. -/
theorem mainMerge_frame_spec_witness :
    (mainMerge (.wellFormed ⟨[mkAdjEvent ⟨2025, 1, 26⟩]⟩) [⟨2025, 1, 26⟩]).addedCount = 0 ∧
    (mainMerge (.wellFormed ⟨[mkAdjEvent ⟨2025, 1, 26⟩]⟩) [⟨2025, 1, 26⟩]).savedInvoked
      = false ∧
    (mainMerge (.wellFormed ⟨[mkAdjEvent ⟨2025, 1, 26⟩]⟩) [⟨2025, 1, 26⟩]).file =
      .wellFormed ⟨[mkAdjEvent ⟨2025, 1, 26⟩]⟩ :=
  ⟨by decide,
    (mainMerge_frame_spec (.wellFormed ⟨[mkAdjEvent ⟨2025, 1, 26⟩]⟩)
      [⟨2025, 1, 26⟩]).1 (by decide)⟩

/-- C6: per-line handling by the reader's scan — after trimming, blank lines
and `#`-comment lines are ignored; a line failing the `YYYY-MM-DD` pattern is
rejected with the format-error reason; a pattern-matching but calendrically
invalid line is rejected with the invalid-date reason; in every case the scan
of the remaining lines proceeds unchanged, so a rejected line never fails the
read. -/
theorem scanLines_line_spec (raw : String) (n : Nat) (ls : List String) :
    ((pyStrip raw).data.isEmpty = true ∨ startsWithHash (pyStrip raw) = true →
      scanLines n (raw :: ls) = scanLines (n + 1) ls) ∧
    ((pyStrip raw).data.isEmpty = false → startsWithHash (pyStrip raw) = false →
      datePatternMatch (pyStrip raw) = false →
      scanLines n (raw :: ls) =
        ((scanLines (n + 1) ls).1,
          formatErrorMsg n (pyStrip raw) :: (scanLines (n + 1) ls).2)) ∧
    ((pyStrip raw).data.isEmpty = false → startsWithHash (pyStrip raw) = false →
      datePatternMatch (pyStrip raw) = true →
      isValidDate (extractDate (pyStrip raw)) = false →
      scanLines n (raw :: ls) =
        ((scanLines (n + 1) ls).1,
          invalidDateMsg n (pyStrip raw) :: (scanLines (n + 1) ls).2)) := by
  refine ⟨fun h => ?_, fun h1 h2 h3 => ?_, fun h1 h2 h3 h4 => ?_⟩
  · rcases h with h | h <;> simp [scanLines, lineClass, h]
  · simp [scanLines, lineClass, h1, h2, h3]
  · simp [scanLines, lineClass, h1, h2, h3, h4]

/-- Witness for C6 at concrete lines: a comment line is ignored, `abc` is
rejected as a format error, `2025-02-30` as an invalid date. -/
theorem scanLines_line_spec_witness :
    scanLines 1 ["#x"] = scanLines 2 [] ∧
    scanLines 1 ["abc"] =
      ((scanLines 2 []).1, formatErrorMsg 1 "abc" :: (scanLines 2 []).2) ∧
    scanLines 1 ["2025-02-30"] =
      ((scanLines 2 []).1, invalidDateMsg 1 "2025-02-30" :: (scanLines 2 []).2) :=
  ⟨(scanLines_line_spec "#x" 1 []).1 (Or.inr (by decide)),
   (scanLines_line_spec "abc" 1 []).2.1 (by decide) (by decide) (by decide),
   (scanLines_line_spec "2025-02-30" 1 []).2.2 (by decide) (by decide) (by decide)
     (by decide)⟩

/-- C5 (amended): when the file yields at least one valid date line, the
reader prints the valid dates sorted ascending followed by the rejected
lines, reaches the confirmation prompt, and on affirmative confirmation
returns the ascending-sorted list of exactly the valid dates found — one
entry per valid input line, so a date repeated in the input appears more than
once (the claim's "each date once" fails; deduplication happens only at the
merge) — while absent confirmation it returns an empty list (cancelled, not
an error). -/
theorem read_dates_confirmed_spec (lines : List String) (confirmAns retryAns : String)
    (h : (scanLines 1 lines).1 ≠ []) :
    (read_dates_from_file (.ok lines) confirmAns retryAns).printedDates =
      List.insertionSort Date.le (scanLines 1 lines).1 ∧
    List.Sorted Date.le
      ((read_dates_from_file (.ok lines) confirmAns retryAns).printedDates) ∧
    (read_dates_from_file (.ok lines) confirmAns retryAns).printedDates.Perm
      (scanLines 1 lines).1 ∧
    (read_dates_from_file (.ok lines) confirmAns retryAns).printedInvalid =
      (scanLines 1 lines).2 ∧
    (read_dates_from_file (.ok lines) confirmAns retryAns).askedConfirm = true ∧
    (pyLower confirmAns = "y" →
      (read_dates_from_file (.ok lines) confirmAns retryAns).ret =
        some (List.insertionSort Date.le (scanLines 1 lines).1)) ∧
    (pyLower confirmAns ≠ "y" →
      (read_dates_from_file (.ok lines) confirmAns retryAns).ret = some []) := by
  by_cases hc : pyLower confirmAns = "y" <;>
    simp [read_dates_from_file, h, hc, List.sorted_insertionSort,
      List.perm_insertionSort]

/-- Witness for C5 at a concrete input: one valid line, confirmed. -/
theorem read_dates_confirmed_spec_witness :
    (scanLines 1 ["2025-01-26"]).1 ≠ [] ∧
    pyLower "y" = "y" ∧
    (read_dates_from_file (.ok ["2025-01-26"]) "y" "x").ret =
      some (List.insertionSort Date.le (scanLines 1 ["2025-01-26"]).1) :=
  ⟨by decide, by decide,
    ((read_dates_confirmed_spec ["2025-01-26"] "y" "x" (by decide)).2.2.2.2.2.1)
      (by decide)⟩

/-- Counterexample to C5 as stated: with the same valid date on two input
lines and an affirmative confirmation, the reader returns the date twice —
the returned collection is not a set with each date once. -/
theorem read_dates_duplicate_cex :
    (read_dates_from_file (.ok ["2025-01-26", "2025-01-26"]) "y" "").ret =
      some [⟨2025, 1, 26⟩, ⟨2025, 1, 26⟩] ∧
    ¬ ([(⟨2025, 1, 26⟩ : Date), ⟨2025, 1, 26⟩].Nodup) := by
  exact ⟨by decide, by decide⟩

/-- C7: the reader is a total function of the file outcome and the user's
answers (no exception escapes) and every failure path carries no dates: a
missing file reports the error and yields the fall-through `None` result,
any other I/O failure returns the empty list, and when no valid dates were
found the retry prompt is reached and declining returns the empty list — in
all these cases the caller (which tests Python truthiness) sees an empty
result. -/
theorem read_dates_failure_spec (confirmAns retryAns : String) (lines : List String) :
    ((read_dates_from_file .notFound confirmAns retryAns).ret = none ∧
      (read_dates_from_file .notFound confirmAns retryAns).hasDates = false) ∧
    ((read_dates_from_file .ioError confirmAns retryAns).ret = some [] ∧
      (read_dates_from_file .ioError confirmAns retryAns).hasDates = false) ∧
    ((scanLines 1 lines).1 = [] →
      (read_dates_from_file (.ok lines) confirmAns retryAns).askedRetry = true ∧
      (pyLower retryAns ≠ "y" →
        (read_dates_from_file (.ok lines) confirmAns retryAns).ret = some []) ∧
      (read_dates_from_file (.ok lines) confirmAns retryAns).hasDates = false) := by
  refine ⟨⟨rfl, rfl⟩, ⟨rfl, rfl⟩, fun h => ?_⟩
  by_cases hr : pyLower retryAns = "y" <;>
    simp [read_dates_from_file, h, hr, ReaderResult.hasDates]

/-- Witness for C7 at a concrete input: a comments-only file and a declined
retry yield the empty result. -/
theorem read_dates_failure_spec_witness :
    (scanLines 1 ["# note"]).1 = [] ∧
    pyLower "n" ≠ "y" ∧
    (read_dates_from_file (.ok ["# note"]) "y" "n").askedRetry = true ∧
    (read_dates_from_file (.ok ["# note"]) "y" "n").ret = some [] ∧
    (read_dates_from_file (.ok ["# note"]) "y" "n").hasDates = false := by
  have h := (read_dates_failure_spec "y" "n" ["# note"]).2.2 (by decide)
  exact ⟨by decide, by decide, h.1, h.2.1 (by decide), h.2.2⟩
